import Mathlib

/-!
Verification of the Google Pay HTML transaction extraction engine
(`flexible_parser.py` and `parse_html_to_json.py`).

The Python code is regex-driven.  We embed it shallowly: fragments are
lists of characters, and every regular expression of the source is
transcribed into a term of a small pattern language `Re` whose
backtracking matcher `reM` mirrors the Python `re` engine on the
constructs those patterns use (ordered alternation, greedy and lazy
repetition of character classes, optional subpatterns, lookahead and
the end anchor).  Character classes are modelled on the ASCII range.
-/

namespace GPay

/-- Model of the regex class backslash-d on the ASCII range. -/
def isDigitCh (c : Char) : Bool := '0' ≤ c && c ≤ '9'

/-- ASCII letters. -/
def isAlphaCh (c : Char) : Bool := ('a' ≤ c && c ≤ 'z') || ('A' ≤ c && c ≤ 'Z')

/-- Model of the regex class backslash-w (word characters) on ASCII. -/
def isWordCh (c : Char) : Bool := isAlphaCh c || isDigitCh c || c == '_'

/-- Model of the regex class backslash-s (whitespace) on ASCII. -/
def isSpaceCh (c : Char) : Bool :=
  c == ' ' || c == '\t' || c == '\n' || c == '\r' || c == '\x0b' || c == '\x0c'

/-- The class A-Z a-z 0-9 used by the transaction id patterns. -/
def isAlnumCh (c : Char) : Bool := isAlphaCh c || isDigitCh c

/-- The class A-Z 0-9 used by the masked account patterns. -/
def isUpAlnumCh (c : Char) : Bool := ('A' ≤ c && c ≤ 'Z') || isDigitCh c

/-- One of the four currency symbols of the amount pattern. -/
def isCurrencyCh (c : Char) : Bool := c == '₹' || c == '€' || c == '$' || c == '£'

/-- `leadEq needle text` is true when `needle` is a leading segment of `text`. -/
def leadEq : List Char → List Char → Bool
  | [], _ => true
  | _ :: _, [] => false
  | a :: as, b :: bs => b == a && leadEq as bs

/-- Substring containment, the model of the Python `in` operator on strings. -/
def containsSub (needle : List Char) : List Char → Bool
  | [] => leadEq needle []
  | c :: t => leadEq needle (c :: t) || containsSub needle t

/-- Model of the Python str.strip method (ASCII whitespace). -/
def pyStrip (s : List Char) : List Char :=
  ((s.dropWhile isSpaceCh).reverse.dropWhile isSpaceCh).reverse

/-- Numeric value of a list of decimal digit characters. -/
def digitsVal (l : List Char) : Nat :=
  l.foldl (fun a c => a * 10 + (c.toNat - '0'.toNat)) 0

/-- Model of the Python format spec 02d: decimal digits, zero padded to width two. -/
def pad2 (n : Nat) : List Char :=
  let ds := Nat.toDigits 10 n
  if ds.length < 2 then '0' :: ds else ds

/-- Model of the Python float constructor on the numerals produced by the amount
pattern after comma removal: optional digits, optional dot, optional digits, at
least one digit overall; anything else raises ValueError, modelled as `none`. -/
def pyFloat (l : List Char) : Option ℚ :=
  let intPart := l.takeWhile isDigitCh
  let rest := l.drop intPart.length
  match rest with
  | [] => if intPart.isEmpty then none else some (mkRat (digitsVal intPart) 1)
  | '.' :: frac =>
      if frac.all isDigitCh then
        if intPart.isEmpty && frac.isEmpty then none
        else some (mkRat (digitsVal (intPart ++ frac)) (10 ^ frac.length))
      else none
  | _ => none

/-- Fuelled splitter modelling Python str.split with no argument:
words separated by runs of whitespace. -/
def splitWsF : Nat → List Char → List (List Char)
  | 0, _ => []
  | fuel + 1, s =>
    match s.dropWhile isSpaceCh with
    | [] => []
    | c :: t =>
        (c :: t.takeWhile (fun d => !isSpaceCh d)) ::
          splitWsF fuel (t.dropWhile (fun d => !isSpaceCh d))

/-- Model of Python str.split with no argument. -/
def splitWs (s : List Char) : List (List Char) := splitWsF (s.length + 1) s

/-- Pattern language covering the regex constructs used by the source:
single characters (case sensitive or not), character classes, sequencing,
ordered alternation, greedy or lazy repetition of a character class with
optional upper bound, an optional subpattern, lookahead, the dollar anchor
and capturing groups. -/
inductive Re where
  | lit : Char → Re
  | litCI : Char → Re
  | cls : (Char → Bool) → Re
  | eps : Re
  | seq : Re → Re → Re
  | alt : Re → Re → Re
  | rep : (Char → Bool) → Nat → Option Nat → Bool → Re
  | opt : Re → Re
  | look : Re → Re
  | dollar : Re
  | grp : Re → Re

/-- Sequencing of a list of patterns. -/
def seqs : List Re → Re
  | [] => .eps
  | r :: t => .seq r (seqs t)

/-- Ordered alternation of a list of patterns; the empty list never matches. -/
def alts : List Re → Re
  | [] => .cls (fun _ => false)
  | [r] => r
  | r :: t => .alt r (alts t)

/-- Literal word, case sensitive. -/
def lits (w : List Char) : Re := seqs (w.map Re.lit)

/-- Literal word, case insensitive. -/
def litsCI (w : List Char) : Re := seqs (w.map Re.litCI)

/-- Candidate consumption lengths for a class repetition whose maximal possible
run has length `hi` and whose minimum is `lo`: descending for a greedy
repetition, ascending for a lazy one, exactly the preference order of the
Python engine. -/
def candLens (lo : Nat) (hi : Nat) (greedy : Bool) : List Nat :=
  if hi < lo then []
  else
    let asc := (List.range (hi + 1 - lo)).map (fun i => lo + i)
    if greedy then asc.reverse else asc

/-- Result threaded through the matcher: captured groups so far and the
remaining input after the match. -/
abbrev MRes := List (List Char) × List Char

/-- Backtracking matcher in continuation passing style.  `reM re s k caps`
tries to match `re` at the start of `s` and calls `k` with the rest of the
input and the updated capture list; alternatives and repetition lengths are
tried in the Python preference order, so the first success agrees with the
Python engine on the patterns we transcribe. -/
def reM (re : Re) (s : List Char) (k : List Char → List (List Char) → Option MRes)
    (caps : List (List Char)) : Option MRes :=
  match re with
  | .lit c =>
      match s with
      | [] => none
      | d :: t => if d == c then k t caps else none
  | .litCI c =>
      match s with
      | [] => none
      | d :: t => if d.toLower == c.toLower then k t caps else none
  | .cls p =>
      match s with
      | [] => none
      | d :: t => if p d then k t caps else none
  | .eps => k s caps
  | .seq a b => reM a s (fun s1 c1 => reM b s1 k c1) caps
  | .alt a b =>
      match reM a s k caps with
      | some r => some r
      | none => reM b s k caps
  | .rep p lo hi g =>
      let run := (s.takeWhile p).length
      let top := match hi with | none => run | some m => Nat.min m run
      (candLens lo top g).findSome? (fun n => k (s.drop n) caps)
  | .opt r =>
      match reM r s k caps with
      | some v => some v
      | none => k s caps
  | .look r =>
      match reM r s (fun _ _ => some ([], [])) [] with
      | some _ => k s caps
      | none => none
  | .dollar => if s == [] || s == ['\n'] then k s caps else none
  | .grp r =>
      reM r s (fun s1 c1 => k s1 (c1 ++ [s.take (s.length - s1.length)])) caps

/-- Try to match `re` at the very start of `s`, returning captures and rest. -/
def searchAt (re : Re) (s : List Char) : Option MRes :=
  reM re s (fun s1 caps => some (caps, s1)) []

/-- Model of re.search: leftmost match.  Returns the whole matched text,
the captured groups and the remaining input after the match. -/
def reSearch (re : Re) : List Char → Option (List Char × List (List Char) × List Char)
  | [] =>
      match searchAt re [] with
      | some (caps, rest) => some ([], caps, rest)
      | none => none
  | c :: t =>
      match searchAt re (c :: t) with
      | some (caps, rest) =>
          some ((c :: t).take ((c :: t).length - rest.length), caps, rest)
      | none => reSearch re t

/-- Fuelled model of re.findall: successive non overlapping leftmost matches.
An empty match advances one character, as in Python. -/
def findAllF (re : Re) : Nat → List Char → List (List Char × List (List Char))
  | 0, _ => []
  | fuel + 1, s =>
    match reSearch re s with
    | none => []
    | some (whole, caps, rest) =>
        (whole, caps) ::
          (if whole.isEmpty then
            match rest with
            | [] => []
            | _ :: t => findAllF re fuel t
          else findAllF re fuel rest)

/-- Model of re.findall. -/
def findAll (re : Re) (s : List Char) : List (List Char × List (List Char)) :=
  findAllF re (s.length + 1) s

/-- Fuelled model of re.sub: replace every non overlapping leftmost match. -/
def subAllF (re : Re) (repl : List Char) : Nat → List Char → List Char
  | 0, s => s
  | fuel + 1, s =>
    match reSearch re s with
    | none => s
    | some (whole, _, rest) =>
        let pre := s.take (s.length - (whole.length + rest.length))
        pre ++ repl ++
          (if whole.isEmpty then
            match rest with
            | [] => []
            | c :: t => c :: subAllF re repl fuel t
          else subAllF re repl fuel rest)

/-- Model of re.sub. -/
def subAll (re : Re) (repl : List Char) (s : List Char) : List Char :=
  subAllF re repl (s.length + 1) s

/-! ## The patterns of the source, transcribed term by term. -/

/-- Greedy unbounded repetition, at least `lo` occurrences. -/
def repGE (p : Char → Bool) (lo : Nat) : Re := .rep p lo none true

/-- Greedy bounded repetition with `lo` to `hi` occurrences. -/
def repBD (p : Char → Bool) (lo hi : Nat) : Re := .rep p lo (some hi) true

/-- The spacing run backslash-s-star. -/
def spStar : Re := .rep isSpaceCh 0 none true

/-- The spacing run backslash-s-plus. -/
def spPlus : Re := repGE isSpaceCh 1

/-- Amount pattern: a currency symbol, optional space, digits and commas,
an optional dot and optional digits, with the symbol and the numeral captured. -/
def amountRe : Re :=
  seqs [.grp (.cls isCurrencyCh), spStar,
    .grp (seqs [repGE (fun c => isDigitCh c || c == ',') 1,
      repBD (fun c => c == '.') 0 1, repGE isDigitCh 0])]

/-- Recipient pattern (case insensitive): an action verb, the amount, a
connector to-from-by, then a lazy capture up to a method connector, a break
tag, a newline or the end. -/
def recipientRe : Re :=
  seqs [alts [litsCI "Paid".data, litsCI "Sent".data, litsCI "Received".data],
    spPlus, .cls isCurrencyCh,
    repGE (fun c => isDigitCh c || c == '.' || c == ',') 1, spPlus,
    alts [litsCI "to".data, litsCI "from".data, litsCI "by".data], spPlus,
    .grp (.rep (fun c => !(c == '\n') && !(c == '<')) 1 none false),
    alts [.seq spPlus (litsCI "using".data), .seq spPlus (litsCI "via".data),
      litsCI "<br".data, litsCI "\n".data, .dollar]]

/-- Payment method pattern: a connector using-via-through, then a lazy capture
up to a masking token, a break tag, a newline or the end. -/
def paymentRe : Re :=
  seqs [alts [lits "using".data, lits "via".data, lits "through".data], spPlus,
    .grp (.rep (fun c => !(c == '<') && !(c == '\n')) 1 none false),
    alts [.seq spPlus (alts [lits "XXXXXXX".data, lits "XXXX".data]),
      lits "<br".data, lits "\n".data, .dollar]]

/-- Masked account pattern: seven X then six or more alphanumerics, or four
alphanumerics, seven X, four alphanumerics, or three X then digits. -/
def accountRe : Re :=
  .grp (alts [
    .seq (lits "XXXXXXX".data) (repGE isUpAlnumCh 6),
    seqs [repBD isUpAlnumCh 4 4, lits "XXXXXXX".data, repBD isUpAlnumCh 4 4],
    .seq (lits "XXX".data) (repGE isDigitCh 1)])

/-- Primary transaction id pattern, with a bold Details label. -/
def tidPrimaryRe : Re :=
  seqs [lits "<b>Details:</b".data, spStar, lits "><br".data, spStar,
    lits "/>&emsp;".data, .grp (repGE isAlnumCh 1)]

/-- The prefix of the secondary transaction id pattern, before its group. -/
def tidSecondaryPre : Re :=
  seqs [lits "Details".data, spStar, repBD (fun c => c == ':') 0 1,
    lits "<br".data, spStar, lits "/>&emsp;".data]

/-- Secondary, more permissive transaction id pattern: a Details label and an
alphanumeric token of length at least six. -/
def tidSecondaryRe : Re :=
  .seq tidSecondaryPre (.seq (.grp (repGE isAlnumCh 6)) .eps)

/-- Labeled status fallback pattern. -/
def statusRe : Re :=
  seqs [alts [lits "Status".data, lits "State".data],
    .rep (fun c => c == ':' || isSpaceCh c) 0 none true,
    .opt (seqs [lits "</b><br".data, spStar, lits "/>&emsp;".data]),
    .grp (repGE isWordCh 1),
    alts [lits "<br".data, .dollar]]

/-- First absolute timestamp pattern of flexible_parser (timestamp_format1):
day, month word, comma, year, time, AM or PM, GMT offset; whole match captured. -/
def tsFmt1Re : Re :=
  .grp (seqs [repBD isDigitCh 1 2, spPlus, repGE isWordCh 1, lits ",".data,
    spPlus, repBD isDigitCh 4 4, lits ",".data, spPlus, repBD isDigitCh 1 2,
    lits ":".data, repBD isDigitCh 2 2, lits ":".data, repBD isDigitCh 2 2,
    spPlus, alts [lits "AM".data, lits "PM".data], spPlus, lits "GMT".data,
    .cls (fun c => c == '+' || c == '-'), repBD isDigitCh 2 2, lits ":".data,
    repBD isDigitCh 2 2])

/-- Second absolute timestamp pattern of flexible_parser (timestamp_format2):
day, month word, year, time, GMT offset; whole match captured. -/
def tsFmt2Re : Re :=
  .grp (seqs [repBD isDigitCh 1 2, spPlus, repGE isWordCh 1, spPlus,
    repBD isDigitCh 4 4, lits ",".data, spPlus, repBD isDigitCh 1 2,
    lits ":".data, repBD isDigitCh 2 2, lits ":".data, repBD isDigitCh 2 2,
    spPlus, lits "GMT".data, .cls (fun c => c == '+' || c == '-'),
    repBD isDigitCh 2 2, lits ":".data, repBD isDigitCh 2 2])

/-- First inner pattern of the normalizer: month word first, then day, year,
time and an AM or PM marker, each in its own group. -/
def normARe : Re :=
  seqs [.grp (repGE isWordCh 1), spPlus, .grp (repBD isDigitCh 1 2),
    lits ",".data, spPlus, .grp (repBD isDigitCh 4 4), lits ",".data, spPlus,
    .grp (repBD isDigitCh 1 2), lits ":".data, .grp (repBD isDigitCh 2 2),
    lits ":".data, .grp (repBD isDigitCh 2 2), spPlus,
    .grp (alts [lits "AM".data, lits "PM".data])]

/-- Second inner pattern of the normalizer: day first, then month word, year
and time, each in its own group. -/
def normBRe : Re :=
  seqs [.grp (repBD isDigitCh 1 2), spPlus, .grp (repGE isWordCh 1), spPlus,
    .grp (repBD isDigitCh 4 4), lits ",".data, spPlus,
    .grp (repBD isDigitCh 1 2), lits ":".data, .grp (repBD isDigitCh 2 2),
    lits ":".data, .grp (repBD isDigitCh 2 2)]

/-- Date only fallback pattern of the JSON output variant. -/
def dateOnlyRe : Re :=
  seqs [.grp (repGE isWordCh 1), spPlus, .grp (repBD isDigitCh 1 2),
    lits ",".data, spPlus, .grp (repBD isDigitCh 4 4)]

/-- The literal emsp entity, removed by the normalizer. -/
def emspRe : Re := lits "&emsp;".data

/-- Break tag with optional spacing and slash, removed from recipients. -/
def brSpRe : Re :=
  seqs [spStar, lits "<br".data, spStar, repBD (fun c => c == '/') 0 1,
    lits ">".data, spStar]

/-- Break tag with optional spacing and slash, removed from products. -/
def brRe : Re :=
  seqs [lits "<br".data, spStar, repBD (fun c => c == '/') 0 1, lits ">".data]

/-- Trailing method clause stripped from a recipient (case insensitive). -/
def trailMethodRe : Re :=
  seqs [spPlus,
    .grp (alts [litsCI "using".data, litsCI "via".data, litsCI "through".data]),
    repGE (fun c => !(c == '\n')) 0]

/-- Masking noise pattern one stripped from a payment method. -/
def pmMask1Re : Re := seqs [spPlus, lits "XXXXXXX".data, repGE isUpAlnumCh 6]

/-- Masking noise pattern two stripped from a payment method. -/
def pmMask2Re : Re :=
  seqs [spPlus, repBD isUpAlnumCh 4 4, lits "XXXXXXX".data, repBD isUpAlnumCh 4 4]

/-- Product pattern: a Products label then a capture up to markup. -/
def productRe : Re :=
  seqs [lits "<b>Products:</b><br".data, spStar, lits "/>&emsp;".data,
    .grp (repGE (fun c => !(c == '\n') && !(c == '<')) 1)]

/-- The action verb screen of extract_from_transaction_block. -/
def verbRe : Re :=
  alts [lits "Paid".data, lits "Sent".data, lits "Received".data,
    lits "Credited".data]

/-- Segmentation tier one: an outer-cell container block up to the next
container marker or the end of the document. -/
def tier1Re : Re :=
  seqs [lits "<div class=\"outer-cell".data, repGE (fun c => !(c == '>')) 0,
    lits ">".data, .rep (fun _ => true) 0 none false,
    .look (alts [lits "<div class=\"outer-cell".data, .dollar])]

/-- Segmentation tier two: a Google Pay title block up to the next title
marker or the end of the document. -/
def tier2Re : Re :=
  seqs [lits "<p class=\"mdl-typography--title\">Google Pay<br /></p>".data,
    .rep (fun _ => true) 0 none false,
    .look (alts [lits "<p class=\"mdl-typography--title\"".data, .dollar])]

/-- Segmentation tier three: an action verb, a currency amount, then anything
up to a GMT offset. -/
def tier3Re : Re :=
  seqs [alts [lits "Paid".data, lits "Sent".data, lits "Received".data,
      lits "Credited".data], spPlus, .cls isCurrencyCh,
    repGE (fun c => isDigitCh c || c == '.' || c == ',') 1,
    .rep (fun _ => true) 0 none false, lits "GMT".data,
    .cls (fun c => c == '+' || c == '-'), repBD isDigitCh 2 2, lits ":".data,
    repBD isDigitCh 2 2]

/-! ## The extractors of FlexibleGooglePayParser. -/

/-- Currency name for a captured symbol: the currency_map lookup with the raw
symbol as the default. -/
def currencyName (sym : List Char) : List Char :=
  if sym == "₹".data then "INR".data
  else if sym == "€".data then "EUR".data
  else if sym == "$".data then "USD".data
  else if sym == "£".data then "GBP".data
  else sym

/-- extract_amount: search the amount pattern, strip commas from the numeral
and parse it, mapping the symbol through currency_map; a numeral the float
constructor rejects yields the pair of nones. -/
def extract_amount (text : List Char) : Option ℚ × Option (List Char) :=
  match reSearch amountRe text with
  | some (_, [sym, num], _) =>
      match pyFloat (num.filter (fun c => !(c == ','))) with
      | some q => (some q, some (currencyName sym))
      | none => (none, none)
  | _ => (none, none)

/-- extract_recipient: search the recipient pattern, then strip, remove break
tags and emsp entities, drop a trailing method clause, and return the stripped
result when non empty. -/
def extract_recipient (text : List Char) : Option (List Char) :=
  match reSearch recipientRe text with
  | some (_, [r0], _) =>
      let r1 := pyStrip r0
      let r2 := subAll brSpRe " ".data r1
      let r3 := subAll emspRe [] r2
      let r4 := subAll trailMethodRe [] r3
      if r4.isEmpty then none else some (pyStrip r4)
  | _ => none

/-- extract_payment_method: search the payment pattern, strip, remove the two
masking noise shapes, collapse whitespace, and return when non empty. -/
def extract_payment_method (text : List Char) : Option (List Char) :=
  match reSearch paymentRe text with
  | some (_, [m0], _) =>
      let m1 := pyStrip m0
      let m2 := subAll pmMask1Re [] m1
      let m3 := subAll pmMask2Re [] m2
      let m4 := List.intercalate " ".data (splitWs m3)
      if m4.isEmpty then none else some m4
  | _ => none

/-- extract_account_number: the stripped first match of the account pattern. -/
def extract_account_number (text : List Char) : Option (List Char) :=
  match reSearch accountRe text with
  | some (_, [a], _) => some (pyStrip a)
  | _ => none

/-- The primary transaction id attempt: the stripped token of the primary
pattern when it matches. -/
def tidPrimary (text : List Char) : Option (List Char) :=
  match reSearch tidPrimaryRe text with
  | some (_, [t], _) => some (pyStrip t)
  | _ => none

/-- The secondary transaction id attempt: the stripped token of the secondary
pattern when it matches. -/
def tidSecondary (text : List Char) : Option (List Char) :=
  match reSearch tidSecondaryRe text with
  | some (_, [t], _) => some (pyStrip t)
  | _ => none

/-- extract_transaction_id: when the primary pattern matches, its token is
returned only if longer than three characters, and the secondary pattern is
never consulted; otherwise the secondary token, if any, is returned. -/
def extract_transaction_id (text : List Char) : Option (List Char) :=
  match tidPrimary text with
  | some t => if 3 < t.length then some t else none
  | none => tidSecondary text

/-- The fixed status vocabulary, in the scan order of the source. -/
def statusVocab : List (List Char) :=
  ["Completed".data, "Pending".data, "Failed".data, "Cancelled".data,
    "Processing".data]

/-- The labeled status fallback. -/
def statusFallback (text : List Char) : Option (List Char) :=
  match reSearch statusRe text with
  | some (_, [st], _) => some (pyStrip st)
  | _ => none

/-- extract_status: the first vocabulary word contained in the fragment, in
vocabulary order, else the labeled fallback. -/
def extract_status (text : List Char) : Option (List Char) :=
  match statusVocab.find? (fun st => containsSub st text) with
  | some st => some st
  | none => statusFallback text

/-- The twelve entry month table of _month_to_num. -/
def monthTable : List (List Char × Nat) :=
  [("Jan".data, 1), ("Feb".data, 2), ("Mar".data, 3), ("Apr".data, 4),
    ("May".data, 5), ("Jun".data, 6), ("Jul".data, 7), ("Aug".data, 8),
    ("Sep".data, 9), ("Oct".data, 10), ("Nov".data, 11), ("Dec".data, 12)]

/-- _month_to_num: dictionary lookup with default one. -/
def month_to_num (m : List Char) : Nat :=
  match monthTable.find? (fun p => p.1 == m) with
  | some p => p.2
  | none => 1

/-- The canonical output format of the normalizer: year text, then zero padded
month, day and hour numbers, then the minute and second texts. -/
def fmtYMDHMS (year : List Char) (monthNum dayN hourN : Nat)
    (minute second : List Char) : List Char :=
  year ++ "-".data ++ pad2 monthNum ++ "-".data ++ pad2 dayN ++ " ".data ++
    pad2 hourN ++ ":".data ++ minute ++ ":".data ++ second

/-- Twelve hour to twenty four hour conversion as written in the source:
twelve AM becomes zero, twelve PM stays twelve, any other PM hour gains
twelve. -/
def hour24 (h0 : Nat) (ampm : List Char) : Nat :=
  if ampm == "PM".data && !(h0 == 12) then h0 + 12
  else if ampm == "AM".data && h0 == 12 then 0
  else h0

/-- _normalize_timestamp: remove emsp entities, strip, then try the month
first inner pattern, then the day first inner pattern, and fall back to the
input unchanged. -/
def normalizeTimestamp (ts0 : List Char) : List Char :=
  let ts := pyStrip (subAll emspRe [] ts0)
  match reSearch normARe ts with
  | some (_, [mon, day, year, hour, minute, second, ampm], _) =>
      fmtYMDHMS year (month_to_num mon) (digitsVal day)
        (hour24 (digitsVal hour) ampm) minute second
  | _ =>
    match reSearch normBRe ts with
    | some (_, [day, mon, year, hour, minute, second], _) =>
        fmtYMDHMS year (month_to_num mon) (digitsVal day) (digitsVal hour)
          minute second
    | _ => ts

/-- extract_timestamp of flexible_parser: search the two absolute timestamp
patterns in order and normalize the matched text. -/
def extract_timestamp (text : List Char) : Option (List Char) :=
  match reSearch tsFmt1Re text with
  | some (_, [ts], _) => some (normalizeTimestamp ts)
  | _ =>
    match reSearch tsFmt2Re text with
    | some (_, [ts], _) => some (normalizeTimestamp ts)
    | _ => none

/-- The ISO output format of the JSON variant, with a T separator and a
trailing Z. -/
def fmtISO (year : List Char) (monthNum dayN hourN : Nat)
    (minute second : List Char) : List Char :=
  year ++ "-".data ++ pad2 monthNum ++ "-".data ++ pad2 dayN ++ "T".data ++
    pad2 hourN ++ ":".data ++ minute ++ ":".data ++ second ++ "Z".data

/-- extract_timestamp of parse_html_to_json: two attempts with the same month
first pattern (the source repeats it verbatim), then a date only fallback. -/
def json_extract_timestamp (text : List Char) : Option (List Char) :=
  match reSearch normARe text with
  | some (_, [mon, day, year, hour, minute, second, ampm], _) =>
      some (fmtISO year (month_to_num mon) (digitsVal day)
        (hour24 (digitsVal hour) ampm) minute second)
  | _ =>
    match reSearch normARe text with
    | some (_, [mon, day, year, hour, minute, second, ampm], _) =>
        some (fmtISO year (month_to_num mon) (digitsVal day)
          (hour24 (digitsVal hour) ampm) minute second)
    | _ =>
      match reSearch dateOnlyRe text with
      | some (_, [mon, day, year], _) =>
          some (fmtISO year (month_to_num mon) (digitsVal day) 0
            "00".data "00".data)
      | _ => none

/-- extract_product: a Products label capture, cleaned of markup, else the
Google Pay service name when present, else nothing. -/
def extract_product (text : List Char) : Option (List Char) :=
  match reSearch productRe text with
  | some (_, [p0], _) =>
      let p1 := pyStrip p0
      let p2 := subAll brRe [] p1
      let p3 := subAll emspRe [] p2
      let p4 := pyStrip (p3.takeWhile (fun c => !(c == '<')))
      if p4.isEmpty then none else some p4
  | _ =>
      if containsSub "Google Pay".data text then some "Google Pay".data
      else none

/-- One extracted transaction record: every field optional, exactly the keys
of the extracted dictionary of the source. -/
structure Extracted where
  timestamp : Option (List Char)
  amount : Option ℚ
  currency : Option (List Char)
  recipient : Option (List Char)
  payment_method : Option (List Char)
  account_number : Option (List Char)
  transaction_id : Option (List Char)
  status : Option (List Char)
  product : Option (List Char)
  wallet : Option (List Char)
deriving DecidableEq, Repr

/-- The action verb screen: the verb regex finds a match in the block. -/
def hasActionVerb (block : List Char) : Bool := (reSearch verbRe block).isSome

/-- extract_from_transaction_block: reject a block with no action verb, run
every extractor, and return the record only when an amount was extracted. -/
def extract_from_transaction_block (block : List Char) : Option Extracted :=
  if hasActionVerb block then
    let ac := extract_amount block
    let e : Extracted :=
      { timestamp := extract_timestamp block
        amount := ac.1
        currency := ac.2
        recipient := extract_recipient block
        payment_method := extract_payment_method block
        account_number := extract_account_number block
        transaction_id := extract_transaction_id block
        status := extract_status block
        product := extract_product block
        wallet := extract_product block }
    if ac.1.isSome then some e else none
  else none

/-- The three findall tiers of parse_html_file, as lists of matched blocks. -/
def tier1Blocks (content : List Char) : List (List Char) :=
  (findAll tier1Re content).map Prod.fst

/-- Tier two blocks. -/
def tier2Blocks (content : List Char) : List (List Char) :=
  (findAll tier2Re content).map Prod.fst

/-- Tier three blocks. -/
def tier3Blocks (content : List Char) : List (List Char) :=
  (findAll tier3Re content).map Prod.fst

/-- The tiered segmentation of parse_html_file: each fallback fires when the
previous tier produced fewer than two blocks. -/
def segmentBlocks (content : List Char) : List (List Char) :=
  let b1 := tier1Blocks content
  if b1.length < 2 then
    let b2 := tier2Blocks content
    if b2.length < 2 then tier3Blocks content else b2
  else b1

/-- parse_html_file after the file read: segment, screen and extract each
block, and keep the records in block order. -/
def parse_html_file (content : List Char) : List Extracted :=
  (segmentBlocks content).filterMap extract_from_transaction_block

/-- What the CLI of parse_html_to_json prints on standard output: either the
JSON array of records or a structured JSON error object. -/
inductive CliOut where
  | records : List Extracted → CliOut
  | errObj : String → CliOut
deriving DecidableEq

/-- Exit code and standard output of one CLI invocation. -/
structure CliResult where
  exitCode : Nat
  stdout : CliOut
deriving DecidableEq

/-- The main entry point of parse_html_to_json, with the process boundary
modelled explicitly: `argv` is the full argument vector and `fs` maps a path
to its content or to a read error message.  A missing argument or a failed
read prints an error object and exits one; otherwise the parsed records are
printed and the exit code is zero. -/
def json_main (argv : List String) (fs : String → Except String (List Char)) :
    CliResult :=
  if argv.length < 2 then ⟨1, .errObj "No HTML file path provided"⟩
  else
    match fs (argv.getD 1 "") with
    | .ok content => ⟨0, .records (parse_html_file content)⟩
    | .error e => ⟨1, .errObj e⟩

/-! ## General lemmas about the matcher. -/

/-- Matching a literal word consumes exactly that word when it leads the
input, and fails otherwise. -/
theorem reM_lits (w : List Char) :
    ∀ (s : List Char) (k : List Char → List (List Char) → Option MRes) caps,
      reM (lits w) s k caps =
        if leadEq w s then k (s.drop w.length) caps else none := by
  induction w with
  | nil =>
    intro s k caps
    simp [lits, seqs, reM, leadEq]
  | cons c w ih =>
    intro s k caps
    cases s with
    | nil => simp [lits, seqs, reM, leadEq]
    | cons d t =>
      simp only [lits, List.map, seqs, reM, leadEq]
      by_cases hdc : (d == c) = true
      · rw [if_pos hdc]
        have := ih t k caps
        simp only [lits] at this
        rw [this]
        simp [hdc, List.length_cons]
      · rw [if_neg hdc]
        simp [Bool.eq_false_iff.mpr hdc]

/-- Pattern constructors that carry no capturing group. -/
def grpFree : Re → Bool
  | .grp _ => false
  | .seq a b => grpFree a && grpFree b
  | .alt a b => grpFree a && grpFree b
  | .opt r => grpFree r
  | _ => true

/-- A successful match of a group free pattern always reaches the
continuation with the capture list unchanged. -/
theorem reM_some_ex (re : Re) :
    grpFree re = true →
    ∀ (s : List Char) (k : List Char → List (List Char) → Option MRes) caps r,
      reM re s k caps = some r → ∃ s1, k s1 caps = some r := by
  induction re with
  | lit c =>
    intro _ s k caps r h
    cases s with
    | nil => simp [reM] at h
    | cons d t =>
      simp only [reM] at h
      split at h
      · exact ⟨t, h⟩
      · cases h
  | litCI c =>
    intro _ s k caps r h
    cases s with
    | nil => simp [reM] at h
    | cons d t =>
      simp only [reM] at h
      split at h
      · exact ⟨t, h⟩
      · cases h
  | cls p =>
    intro _ s k caps r h
    cases s with
    | nil => simp [reM] at h
    | cons d t =>
      simp only [reM] at h
      split at h
      · exact ⟨t, h⟩
      · cases h
  | eps =>
    intro _ s k caps r h
    exact ⟨s, h⟩
  | seq a b iha ihb =>
    intro hg s k caps r h
    simp only [grpFree, Bool.and_eq_true] at hg
    simp only [reM] at h
    obtain ⟨s1, h1⟩ := iha hg.1 s _ caps r h
    exact ihb hg.2 s1 k caps r h1
  | alt a b iha ihb =>
    intro hg s k caps r h
    simp only [grpFree, Bool.and_eq_true] at hg
    simp only [reM] at h
    split at h
    · rename_i v hv
      exact iha hg.1 s k caps r (hv.trans h)
    · exact ihb hg.2 s k caps r h
  | rep p lo hi g =>
    intro _ s k caps r h
    simp only [reM] at h
    obtain ⟨n, _, hn⟩ := List.exists_of_findSome?_eq_some h
    exact ⟨s.drop n, hn⟩
  | opt r ihr =>
    intro hg s k caps r0 h
    simp only [grpFree] at hg
    simp only [reM] at h
    split at h
    · rename_i v hv
      exact ihr hg s k caps r0 (hv.trans h)
    · exact ⟨s, h⟩
  | look r ihr =>
    intro _ s k caps r0 h
    simp only [reM] at h
    split at h
    · exact ⟨s, h⟩
    · cases h
  | dollar =>
    intro _ s k caps r h
    simp only [reM] at h
    split at h
    · exact ⟨s, h⟩
    · cases h
  | grp r ihr =>
    intro hg
    simp [grpFree] at hg

/-- If the continuation fails on every suffix of the input, so does the
whole match. -/
theorem reM_none_of (re : Re) :
    ∀ (s : List Char) (k : List Char → List (List Char) → Option MRes) caps,
      (∀ s1 c1, s1 <:+ s → k s1 c1 = none) → reM re s k caps = none := by
  induction re with
  | lit c =>
    intro s k caps hk
    cases s with
    | nil => simp [reM]
    | cons d t =>
      simp only [reM]
      split
      · exact hk t caps (List.suffix_cons d t)
      · rfl
  | litCI c =>
    intro s k caps hk
    cases s with
    | nil => simp [reM]
    | cons d t =>
      simp only [reM]
      split
      · exact hk t caps (List.suffix_cons d t)
      · rfl
  | cls p =>
    intro s k caps hk
    cases s with
    | nil => simp [reM]
    | cons d t =>
      simp only [reM]
      split
      · exact hk t caps (List.suffix_cons d t)
      · rfl
  | eps =>
    intro s k caps hk
    exact hk s caps List.suffix_rfl
  | seq a b iha ihb =>
    intro s k caps hk
    simp only [reM]
    apply iha
    intro s1 c1 hs1
    apply ihb
    intro s2 c2 hs2
    exact hk s2 c2 (hs2.trans hs1)
  | alt a b iha ihb =>
    intro s k caps hk
    simp only [reM]
    rw [iha s k caps hk, ihb s k caps hk]
  | rep p lo hi g =>
    intro s k caps hk
    simp only [reM]
    rw [List.findSome?_eq_none_iff]
    intro n _
    exact hk (s.drop n) caps (List.drop_suffix n s)
  | opt r ihr =>
    intro s k caps hk
    simp only [reM]
    rw [ihr s k caps hk]
    exact hk s caps List.suffix_rfl
  | look r ihr =>
    intro s k caps hk
    simp only [reM]
    split
    · exact hk s caps List.suffix_rfl
    · rfl
  | dollar =>
    intro s k caps hk
    simp only [reM]
    split
    · exact hk s caps List.suffix_rfl
    · rfl
  | grp r ihr =>
    intro s k caps hk
    simp only [reM]
    apply ihr
    intro s1 c1 hs1
    exact hk s1 _ hs1

/-- A character some part of the pattern must consume on every successful
match. -/
def reqChar (c : Char) : Re → Bool
  | .lit d => d == c
  | .seq a b => reqChar c a || reqChar c b
  | .alt a b => reqChar c a && reqChar c b
  | .grp r => reqChar c r
  | _ => false

/-- A pattern that requires a character cannot match inside an input that
does not contain it. -/
theorem reM_req (c : Char) (re : Re) :
    reqChar c re = true →
    ∀ (s : List Char), c ∉ s →
      ∀ (k : List Char → List (List Char) → Option MRes) caps,
        reM re s k caps = none := by
  induction re with
  | lit d =>
    intro hq s hs k caps
    have hdc : d = c := by simpa [reqChar] using hq
    cases s with
    | nil => simp [reM]
    | cons e t =>
      simp only [reM]
      split
      · rename_i he
        exfalso
        apply hs
        have : e = d := by simpa using he
        rw [List.mem_cons]
        exact Or.inl (hdc ▸ this.symm)
      · rfl
  | litCI d => intro hq; simp [reqChar] at hq
  | cls p => intro hq; simp [reqChar] at hq
  | eps => intro hq; simp [reqChar] at hq
  | seq a b iha ihb =>
    intro hq s hs k caps
    simp only [reqChar, Bool.or_eq_true] at hq
    simp only [reM]
    rcases hq with hqa | hqb
    · exact iha hqa s hs _ caps
    · apply reM_none_of
      intro s1 c1 hs1
      exact ihb hqb s1 (fun hm => hs (hs1.subset hm)) k c1
  | alt a b iha ihb =>
    intro hq s hs k caps
    simp only [reqChar, Bool.and_eq_true] at hq
    simp only [reM]
    rw [iha hq.1 s hs k caps, ihb hq.2 s hs k caps]
  | rep p lo hi g => intro hq; simp [reqChar] at hq
  | opt r ihr => intro hq; simp [reqChar] at hq
  | look r ihr => intro hq; simp [reqChar] at hq
  | dollar => intro hq; simp [reqChar] at hq
  | grp r ihr =>
    intro hq s hs k caps
    simp only [reqChar] at hq
    simp only [reM]
    exact ihr hq s hs _ caps

/-- Search fails on an input missing a required character of the pattern. -/
theorem reSearch_req_none (c : Char) (re : Re) (hq : reqChar c re = true) :
    ∀ (s : List Char), c ∉ s → reSearch re s = none := by
  intro s
  induction s with
  | nil =>
    intro hs
    simp [reSearch, searchAt, reM_req c re hq [] hs]
  | cons d t ih =>
    intro hs
    have h1 : searchAt re (d :: t) = none := by
      simp [searchAt, reM_req c re hq (d :: t) hs]
    have h2 : reSearch re t = none :=
      ih (fun hm => hs (List.mem_cons_of_mem d hm))
    simp [reSearch, h1, h2]

/-- A successful search happens at some suffix of the input. -/
theorem reSearch_some_ex (re : Re) :
    ∀ (s w : List Char) caps rest,
      reSearch re s = some (w, caps, rest) →
      ∃ t, t <:+ s ∧ searchAt re t = some (caps, rest) := by
  intro s
  induction s with
  | nil =>
    intro w caps rest h
    simp only [reSearch] at h
    split at h
    · rename_i caps1 rest1 heq
      obtain ⟨rfl, rfl, rfl⟩ : w = [] ∧ caps1 = caps ∧ rest1 = rest := by
        cases h; exact ⟨rfl, rfl, rfl⟩
      exact ⟨[], List.suffix_rfl, heq⟩
    · cases h
  | cons d t ih =>
    intro w caps rest h
    simp only [reSearch] at h
    split at h
    · rename_i caps1 rest1 heq
      obtain ⟨rfl, rfl⟩ : caps1 = caps ∧ rest1 = rest := by
        cases h; exact ⟨rfl, rfl⟩
      exact ⟨d :: t, List.suffix_rfl, heq⟩
    · obtain ⟨t1, ht1, hs1⟩ := ih w caps rest h
      exact ⟨t1, ht1.trans (List.suffix_cons d t), hs1⟩

/-- Membership bounds for the candidate lengths of a repetition. -/
theorem candLens_mem {lo hi : Nat} {g : Bool} {n : Nat}
    (h : n ∈ candLens lo hi g) : lo ≤ n ∧ n ≤ hi := by
  unfold candLens at h
  split at h
  · simp at h
  · rename_i hlo
    have h' : n ∈ (List.range (hi + 1 - lo)).map (fun i => lo + i) := by
      split at h
      · simpa using h
      · exact h
    simp only [List.mem_map, List.mem_range] at h'
    obtain ⟨i, hi', rfl⟩ := h'
    omega

/-- The maximal run of a class bounds the length of the input. -/
theorem takeWhile_length_le (p : Char → Bool) :
    ∀ (l : List Char), (l.takeWhile p).length ≤ l.length := by
  intro l
  induction l with
  | nil => simp
  | cons a t ih =>
    rw [List.takeWhile_cons]
    split
    · simpa using ih
    · simp

/-- Every element of a take bounded by the maximal run satisfies the class. -/
theorem take_all_of_le_takeWhile {p : Char → Bool} :
    ∀ (l : List Char) (n : Nat), n ≤ (l.takeWhile p).length →
      ∀ c ∈ l.take n, p c = true := by
  intro l
  induction l with
  | nil =>
    intro n _ c hc
    simp at hc
  | cons a t ih =>
    intro n h c hc
    cases hp : p a with
    | false =>
      rw [List.takeWhile_cons, if_neg (by simp [hp])] at h
      simp at h
      subst h
      simp at hc
    | true =>
      cases n with
      | zero => simp at hc
      | succ m =>
        rw [List.takeWhile_cons, if_pos (by simp [hp])] at h
        simp only [List.length_cons, Nat.succ_le_succ_iff] at h
        rw [List.take_succ_cons] at hc
        rcases List.mem_cons.mp hc with rfl | hc
        · exact hp
        · exact ih m h c hc

/-- Two boolean classes that disagree on a pair of characters force their
inequality. -/
theorem beq_false_of_pred {p : Char → Bool} {c d : Char}
    (hc : p c = true) (hd : p d = false) : (c == d) = false := by
  cases h : c == d with
  | false => rfl
  | true =>
    have : c = d := by simpa using h
    subst this
    rw [hc] at hd
    cases hd

/-- Digits are not whitespace. -/
theorem digit_not_space {c : Char} (hc : isDigitCh c = true) :
    isSpaceCh c = false := by
  unfold isSpaceCh
  rw [beq_false_of_pred hc (by decide), beq_false_of_pred hc (by decide),
    beq_false_of_pred hc (by decide), beq_false_of_pred hc (by decide),
    beq_false_of_pred hc (by decide), beq_false_of_pred hc (by decide)]
  rfl

/-- Alphanumerics are not whitespace. -/
theorem alnum_not_space {c : Char} (hc : isAlnumCh c = true) :
    isSpaceCh c = false := by
  unfold isSpaceCh
  rw [beq_false_of_pred hc (by decide), beq_false_of_pred hc (by decide),
    beq_false_of_pred hc (by decide), beq_false_of_pred hc (by decide),
    beq_false_of_pred hc (by decide), beq_false_of_pred hc (by decide)]
  rfl

/-- dropWhile is the identity when the head fails the class. -/
theorem dropWhile_id_of_headFalse {p : Char → Bool} :
    ∀ {s : List Char}, (∀ a, s.head? = some a → p a = false) →
      s.dropWhile p = s := by
  intro s h
  cases s with
  | nil => rfl
  | cons a t => simp [List.dropWhile_cons, h a rfl]

/-- Stripping is the identity when neither end is whitespace. -/
theorem pyStrip_eq_self_of_ends {s : List Char}
    (hh : ∀ a, s.head? = some a → isSpaceCh a = false)
    (hl : ∀ a, s.getLast? = some a → isSpaceCh a = false) :
    pyStrip s = s := by
  unfold pyStrip
  rw [dropWhile_id_of_headFalse hh]
  rw [dropWhile_id_of_headFalse (by
    intro a ha
    apply hl
    rwa [List.head?_reverse] at ha)]
  exact List.reverse_reverse s

/-- Stripping is the identity on a list with no whitespace at all. -/
theorem pyStrip_eq_self_of_all {s : List Char}
    (h : ∀ c ∈ s, isSpaceCh c = false) : pyStrip s = s := by
  apply pyStrip_eq_self_of_ends
  · intro a ha
    cases s with
    | nil => cases ha
    | cons b t =>
      injection ha with hab
      subst hab
      exact h _ (by simp)
  · intro a ha
    exact h a (List.mem_of_getLast?_eq_some ha)

/-- Search on the empty input succeeds exactly when the anchored attempt
does. -/
theorem reSearch_isSome_nil (re : Re) :
    (reSearch re []).isSome = (searchAt re []).isSome := by
  cases h : searchAt re [] with
  | some p =>
    obtain ⟨caps, rest⟩ := p
    simp [reSearch, h]
  | none => simp [reSearch, h]

/-- Search on a cons succeeds exactly when the attempt at the head or the
search of the tail does. -/
theorem reSearch_isSome_cons (re : Re) (c : Char) (t : List Char) :
    (reSearch re (c :: t)).isSome =
      ((searchAt re (c :: t)).isSome || (reSearch re t).isSome) := by
  cases h : searchAt re (c :: t) with
  | some p =>
    obtain ⟨caps, rest⟩ := p
    simp [reSearch, h]
  | none => simp [reSearch, h]

/-- The matcher equation for ordered alternation. -/
theorem reM_alt (a b : Re) (s : List Char)
    (k : List Char → List (List Char) → Option MRes) (caps : List (List Char)) :
    reM (.alt a b) s k caps =
      match reM a s k caps with
      | some r => some r
      | none => reM b s k caps := rfl

/-- An anchored attempt of an alternation of literal words succeeds exactly
when one of the words leads the input. -/
theorem searchAt_altLits :
    ∀ (ws : List (List Char)) (s : List Char), ws ≠ [] →
      (searchAt (alts (ws.map lits)) s).isSome =
        ws.any (fun w => leadEq w s) := by
  intro ws
  induction ws with
  | nil => intro s h; cases h rfl
  | cons w ws ih =>
    intro s _
    cases ws with
    | nil =>
      simp only [List.map, alts, searchAt, reM_lits]
      by_cases h : leadEq w s = true <;> simp [h]
    | cons w2 t =>
      simp only [List.map] at ih ⊢
      simp only [alts, searchAt, reM_alt, reM_lits]
      have hih := ih s (by simp)
      simp only [searchAt] at hih
      by_cases h : leadEq w s = true
      · simp [h]
      · simp only [Bool.not_eq_true] at h
        simp [h, hih]

/-- The verb screen attempt at a position is a leading match of one of the
four action verbs. -/
theorem searchAt_verb (s : List Char) :
    (searchAt verbRe s).isSome =
      (leadEq "Paid".data s || leadEq "Sent".data s ||
       leadEq "Received".data s || leadEq "Credited".data s) := by
  have hv : verbRe =
      alts (["Paid".data, "Sent".data, "Received".data,
        "Credited".data].map lits) := rfl
  rw [hv, searchAt_altLits _ s (by simp)]
  simp [Bool.or_assoc]

/-- The action verb screen of the assembler is substring containment of one
of the four literal verbs. -/
theorem hasActionVerb_eq (s : List Char) :
    hasActionVerb s =
      (containsSub "Paid".data s || containsSub "Sent".data s ||
       containsSub "Received".data s || containsSub "Credited".data s) := by
  unfold hasActionVerb
  induction s with
  | nil =>
    rw [reSearch_isSome_nil, searchAt_verb]
    simp [containsSub]
  | cons c t ih =>
    rw [reSearch_isSome_cons, searchAt_verb, ih]
    simp only [containsSub]
    cases leadEq "Paid".data (c :: t) <;>
      cases leadEq "Sent".data (c :: t) <;>
        cases leadEq "Received".data (c :: t) <;>
          cases leadEq "Credited".data (c :: t) <;> simp

/-! ## The claims. -/

/-- C1: extract_from_transaction_block returns a record exactly when the
fragment contains one of the action verbs Paid, Sent, Received, Credited and
the amount extractor parses an amount; a returned record carries exactly that
amount, and a fragment with no extractable amount never becomes a record. -/
theorem claim_C1 (block : List Char) :
    ((extract_from_transaction_block block).isSome = true ↔
      (containsSub "Paid".data block || containsSub "Sent".data block ||
       containsSub "Received".data block ||
       containsSub "Credited".data block) = true ∧
      (extract_amount block).1.isSome = true) ∧
    (∀ r, extract_from_transaction_block block = some r →
      r.amount = (extract_amount block).1) := by
  constructor
  · rw [← hasActionVerb_eq]
    unfold extract_from_transaction_block
    cases hv : hasActionVerb block with
    | false => simp [hv]
    | true =>
      cases ha : (extract_amount block).1.isSome with
      | false => simp [ha]
      | true => simp [ha]
  · intro r hr
    unfold extract_from_transaction_block at hr
    by_cases hv : hasActionVerb block = true
    · by_cases ha : (extract_amount block).1.isSome = true
      · simp only [hv, ha, if_true, eq_self_iff_true, Option.some.injEq] at hr
        subst hr
        rfl
      · simp [hv, ha] at hr
    · simp [hv] at hr

/-- Witness for C1: a concrete fragment with a verb and an amount yields a
record carrying that amount. -/
theorem claim_C1_witness :
    (extract_from_transaction_block "Paid ₹5 x".data).isSome = true ∧
    (∀ r, extract_from_transaction_block "Paid ₹5 x".data = some r →
      r.amount = (extract_amount "Paid ₹5 x".data).1) :=
  ⟨(claim_C1 "Paid ₹5 x".data).1.mpr ⟨by decide, by decide⟩,
    (claim_C1 "Paid ₹5 x".data).2⟩

/-- The document of the end to end scenario of C2: the fragment inside one
container block. -/
def c2doc1 : List Char :=
  "<div class=\"outer-cell\">Paid ₹150.00 to Starbucks using Credit Card XXXX1234<br/>Status: Completed</div>".data

/-- The same fragment duplicated into two container blocks. -/
def c2doc2 : List Char := c2doc1 ++ c2doc1

/-- The record the code actually extracts from the C2 fragment. -/
def c2record : Extracted :=
  { timestamp := none, amount := some 150, currency := some "INR".data,
    recipient := some "Starbucks".data,
    payment_method := some "Credit Card".data,
    account_number := some "XXX1234".data, transaction_id := none,
    status := some "Completed".data, product := none, wallet := none }

set_option maxRecDepth 400000 in
/-- C2 counterexample: parsing the document with the fragment inside one
container block yields no record at all, not one record: a single container
block fails the two fragment threshold of the segmenter and no fallback tier
matches, since the fragment has no GMT timestamp. -/
theorem claim_C2_counterexample :
    parse_html_file c2doc1 = [] ∧ (parse_html_file c2doc1).length ≠ 1 := by
  refine ⟨by decide, by decide⟩

set_option maxRecDepth 400000 in
/-- C2 amended: duplicating the container block yields one record per block
with amount 150, currency INR, recipient Starbucks, payment method Credit
Card and status Completed; the extracted account number is XXX1234, because
the leftmost match of the account pattern starts one character into
XXXX1234. -/
theorem claim_C2 : parse_html_file c2doc2 = [c2record, c2record] := by decide

/-- C3: segmentation tries the container tier, then the title tier, then the
verb and amount scan, stopping at the first tier with at least two fragments;
with no container block and at least two title blocks the output is exactly
the title splits and in particular not empty. -/
theorem claim_C3 (content : List Char) :
    (2 ≤ (tier1Blocks content).length →
      segmentBlocks content = tier1Blocks content) ∧
    ((tier1Blocks content).length < 2 → 2 ≤ (tier2Blocks content).length →
      segmentBlocks content = tier2Blocks content) ∧
    ((tier1Blocks content).length < 2 → (tier2Blocks content).length < 2 →
      segmentBlocks content = tier3Blocks content) ∧
    (tier1Blocks content = [] → 2 ≤ (tier2Blocks content).length →
      segmentBlocks content = tier2Blocks content ∧
      segmentBlocks content ≠ []) := by
  refine ⟨?_, ?_, ?_, ?_⟩
  · intro h
    simp only [segmentBlocks]
    rw [if_neg (by omega)]
  · intro h1 h2
    simp only [segmentBlocks]
    rw [if_pos h1, if_neg (by omega)]
  · intro h1 h2
    simp only [segmentBlocks]
    rw [if_pos h1, if_pos h2]
  · intro h1 h2
    have h1' : (tier1Blocks content).length < 2 := by rw [h1]; simp
    have hseg : segmentBlocks content = tier2Blocks content := by
      simp only [segmentBlocks]
      rw [if_pos h1', if_neg (by omega)]
    refine ⟨hseg, ?_⟩
    rw [hseg]
    intro he
    rw [he] at h2
    simp at h2

/-- A document with two title marker blocks and no container marker. -/
def c3doc : List Char :=
  "<p class=\"mdl-typography--title\">Google Pay<br /></p>Paid ₹5 to A<p class=\"mdl-typography--title\">Google Pay<br /></p>Sent ₹6 to B".data

set_option maxRecDepth 100000 in
/-- Witness for C3: on a concrete document with zero container blocks and two
title blocks, the segmenter yields the title splits. -/
theorem claim_C3_witness :
    segmentBlocks c3doc = tier2Blocks c3doc ∧ segmentBlocks c3doc ≠ [] :=
  (claim_C3 c3doc).2.2.2 (by decide) (by decide)

/-- C5: when a fragment contains a literal of the fixed status vocabulary,
extract_status returns the first such literal in vocabulary scan order, and
the labeled fallback is consulted exactly when no literal occurs. -/
theorem claim_C5 (text : List Char) :
    (∀ st, statusVocab.find? (fun s => containsSub s text) = some st →
      extract_status text = some st) ∧
    (statusVocab.find? (fun s => containsSub s text) = none →
      extract_status text = statusFallback text) := by
  constructor
  · intro st h
    unfold extract_status
    rw [h]
  · intro h
    unfold extract_status
    rw [h]

/-- Witness for C5: a fragment containing Pending before Completed still
yields Completed, the first hit in vocabulary scan order. -/
theorem claim_C5_witness :
    extract_status "x Pending y Completed".data = some "Completed".data :=
  (claim_C5 "x Pending y Completed".data).1 "Completed".data (by decide)

set_option maxRecDepth 10000 in
/-- C7: the twelve hour conversion of the normalizer maps twelve AM to hour
zero, keeps twelve PM at twelve, and adds twelve to any other PM hour, both
as the hour24 helper and end to end through _normalize_timestamp. -/
theorem claim_C7 :
    hour24 12 "AM".data = 0 ∧ hour24 12 "PM".data = 12 ∧
    hour24 1 "PM".data = 13 ∧
    normalizeTimestamp "Jul 28, 2024, 12:00:00 AM".data =
      "2024-07-28 00:00:00".data ∧
    normalizeTimestamp "Jul 28, 2024, 12:00:00 PM".data =
      "2024-07-28 12:00:00".data ∧
    normalizeTimestamp "Jul 28, 2024, 1:30:00 PM".data =
      "2024-07-28 13:30:00".data := by
  refine ⟨by decide, by decide, by decide, by decide, by decide, by decide⟩

/-- C9: the CLI model prints the record array and exits zero whenever the
file reads, also when no transaction is found, and prints a structured error
object and exits one on a read failure or a missing argument. -/
theorem claim_C9 (fs : String → Except String (List Char)) (path : String) :
    (∀ content, fs path = .ok content →
      json_main ["script", path] fs = ⟨0, .records (parse_html_file content)⟩) ∧
    (fs path = .ok [] → json_main ["script", path] fs = ⟨0, .records []⟩) ∧
    (∀ e, fs path = .error e →
      json_main ["script", path] fs = ⟨1, .errObj e⟩) ∧
    json_main ["script"] fs = ⟨1, .errObj "No HTML file path provided"⟩ := by
  have hget : (["script", path].getD 1 "") = path := rfl
  refine ⟨?_, ?_, ?_, ?_⟩
  · intro content h
    unfold json_main
    rw [if_neg (by simp), hget, h]
  · intro h
    unfold json_main
    rw [if_neg (by simp), hget, h]
    rfl
  · intro e h
    unfold json_main
    rw [if_neg (by simp), hget, h]
  · unfold json_main
    rw [if_pos (by simp)]

/-- A two path file system for the C9 witness. -/
def fsEx : String → Except String (List Char) :=
  fun p => if p = "a.html" then .ok [] else .error "read failure"

/-- Witness for C9: a readable empty document exits zero with an empty record
array, and a missing file exits one with the error object. -/
theorem claim_C9_witness :
    json_main ["script", "a.html"] fsEx = ⟨0, .records []⟩ ∧
    json_main ["script", "missing.html"] fsEx = ⟨1, .errObj "read failure"⟩ :=
  ⟨(claim_C9 fsEx "a.html").2.1 (by rfl),
    (claim_C9 fsEx "missing.html").2.2.1 "read failure" (by rfl)⟩

/-- C10: _month_to_num maps every name outside its twelve entry table to one,
so a matched timestamp with an unrecognized month name, March for example, is
silently normalized to month 01 instead of being rejected. -/
theorem claim_C10 :
    (∀ m : List Char, m ∉ monthTable.map Prod.fst → month_to_num m = 1) ∧
    normalizeTimestamp "March 5, 2024, 1:00:00 PM".data =
      "2024-01-05 13:00:00".data := by
  constructor
  · intro m hm
    have h : monthTable.find? (fun p => p.1 == m) = none := by
      rw [List.find?_eq_none]
      intro p hp hb
      apply hm
      have : p.1 = m := by simpa using hb
      exact this ▸ List.mem_map_of_mem Prod.fst hp
    unfold month_to_num
    rw [h]
  · decide

/-- Witness for C10: March is outside the table and maps to month one. -/
theorem claim_C10_witness : month_to_num "March".data = 1 :=
  claim_C10.1 "March".data (by decide)

/-- Every token the secondary transaction id pattern captures has at least
six characters: the capture is a take of at least six alphanumerics, and
stripping leaves it unchanged. -/
theorem tidSecondary_len {text t : List Char} (h : tidSecondary text = some t) :
    6 ≤ t.length := by
  unfold tidSecondary at h
  split at h
  · rename_i w t0 rest heq
    obtain rfl : pyStrip t0 = t := by injection h
    obtain ⟨t1, _, hAt⟩ :=
      reSearch_some_ex tidSecondaryRe text w [t0] rest heq
    have hg : grpFree tidSecondaryPre = true := by decide
    obtain ⟨s1, hK⟩ :=
      reM_some_ex tidSecondaryPre hg t1
        (fun s2 c2 => reM (.seq (.grp (repGE isAlnumCh 6)) .eps) s2
          (fun s3 caps => some (caps, s3)) c2) [] ([t0], rest) hAt
    simp only [reM, repGE, List.nil_append] at hK
    obtain ⟨n, hmem, hn⟩ := List.exists_of_findSome?_eq_some hK
    simp only [Option.some.injEq, Prod.mk.injEq, List.cons.injEq,
      and_true] at hn
    obtain ⟨ht0, -⟩ := hn
    obtain ⟨h6, htop⟩ := candLens_mem hmem
    have hrun : (s1.takeWhile isAlnumCh).length ≤ s1.length :=
      takeWhile_length_le _ s1
    have hlen : s1.length - (s1.drop n).length = n := by
      rw [List.length_drop]
      omega
    rw [hlen] at ht0
    have hall : ∀ c ∈ t0, isAlnumCh c = true := by
      rw [← ht0]
      exact take_all_of_le_takeWhile s1 n htop
    have hps : pyStrip t0 = t0 :=
      pyStrip_eq_self_of_all (fun c hc => alnum_not_space (hall c hc))
    rw [hps, ← ht0, List.length_take]
    omega
  · cases h

/-- C6 amended: the primary token is accepted exactly when longer than three
characters, and when the primary pattern matches at all the secondary is
never consulted; only when the primary finds no match is the secondary token
returned, and such a token always has length at least six. -/
theorem claim_C6 (text : List Char) :
    (∀ t, tidPrimary text = some t →
      extract_transaction_id text = if 3 < t.length then some t else none) ∧
    (tidPrimary text = none →
      extract_transaction_id text = tidSecondary text) ∧
    (∀ t, tidSecondary text = some t → 6 ≤ t.length) := by
  refine ⟨?_, ?_, ?_⟩
  · intro t h
    unfold extract_transaction_id
    rw [h]
  · intro h
    unfold extract_transaction_id
    rw [h]
  · intro t h
    exact tidSecondary_len h

/-- A fragment where the primary pattern matches a short token while the
secondary pattern would match a long one. -/
def c6doc : List Char :=
  "<b>Details:</b><br />&emsp;ab Details<br />&emsp;abcdef".data

set_option maxRecDepth 100000 in
/-- C6 counterexample: the secondary pattern matches the six character token
abcdef, yet extract_transaction_id returns nothing, because the primary
pattern matched the short token ab and returned without ever consulting the
secondary pattern. -/
theorem claim_C6_counterexample :
    tidSecondary c6doc = some "abcdef".data ∧
    6 ≤ "abcdef".data.length ∧
    tidPrimary c6doc = some "ab".data ∧
    extract_transaction_id c6doc = none := by
  refine ⟨by decide, by decide, by decide, by decide⟩

set_option maxRecDepth 100000 in
/-- Witness for C6: with no primary match, the secondary token of length six
is returned. -/
theorem claim_C6_witness :
    extract_transaction_id "Details<br />&emsp;abcdef".data =
      tidSecondary "Details<br />&emsp;abcdef".data ∧
    extract_transaction_id "Details<br />&emsp;abcdef".data =
      some "abcdef".data := by
  have h := (claim_C6 "Details<br />&emsp;abcdef".data).2.1 (by decide)
  exact ⟨h, by decide⟩

/-- The canonical output shape of the normalizer: four digit year, dash, two
digit month, dash, two digit day, space, two digit hour, colon, two digit
minute, colon, two digit second, all digits ASCII. -/
def isCanonicalTs : List Char → Bool
  | [y1, y2, y3, y4, d1, mo1, mo2, d2, da1, da2, sp, h1, h2, c1, mi1, mi2,
      c2, se1, se2] =>
      isDigitCh y1 && isDigitCh y2 && isDigitCh y3 && isDigitCh y4 &&
      d1 == '-' && isDigitCh mo1 && isDigitCh mo2 && d2 == '-' &&
      isDigitCh da1 && isDigitCh da2 && sp == ' ' &&
      isDigitCh h1 && isDigitCh h2 && c1 == ':' &&
      isDigitCh mi1 && isDigitCh mi2 && c2 == ':' &&
      isDigitCh se1 && isDigitCh se2
  | _ => false

/-- A canonical timestamp consists of digits, dashes, one space and colons,
and starts and ends with a digit. -/
theorem canonical_facts {s : List Char} (h : isCanonicalTs s = true) :
    (∀ c ∈ s, isDigitCh c = true ∨ c = '-' ∨ c = ' ' ∨ c = ':') ∧
    (∀ a, s.head? = some a → isDigitCh a = true) ∧
    (∀ a, s.getLast? = some a → isDigitCh a = true) := by
  rcases s with _ | ⟨a0, s⟩
  · exact absurd h (by simp [isCanonicalTs])
  rcases s with _ | ⟨a1, s⟩
  · exact absurd h (by simp [isCanonicalTs])
  rcases s with _ | ⟨a2, s⟩
  · exact absurd h (by simp [isCanonicalTs])
  rcases s with _ | ⟨a3, s⟩
  · exact absurd h (by simp [isCanonicalTs])
  rcases s with _ | ⟨a4, s⟩
  · exact absurd h (by simp [isCanonicalTs])
  rcases s with _ | ⟨a5, s⟩
  · exact absurd h (by simp [isCanonicalTs])
  rcases s with _ | ⟨a6, s⟩
  · exact absurd h (by simp [isCanonicalTs])
  rcases s with _ | ⟨a7, s⟩
  · exact absurd h (by simp [isCanonicalTs])
  rcases s with _ | ⟨a8, s⟩
  · exact absurd h (by simp [isCanonicalTs])
  rcases s with _ | ⟨a9, s⟩
  · exact absurd h (by simp [isCanonicalTs])
  rcases s with _ | ⟨a10, s⟩
  · exact absurd h (by simp [isCanonicalTs])
  rcases s with _ | ⟨a11, s⟩
  · exact absurd h (by simp [isCanonicalTs])
  rcases s with _ | ⟨a12, s⟩
  · exact absurd h (by simp [isCanonicalTs])
  rcases s with _ | ⟨a13, s⟩
  · exact absurd h (by simp [isCanonicalTs])
  rcases s with _ | ⟨a14, s⟩
  · exact absurd h (by simp [isCanonicalTs])
  rcases s with _ | ⟨a15, s⟩
  · exact absurd h (by simp [isCanonicalTs])
  rcases s with _ | ⟨a16, s⟩
  · exact absurd h (by simp [isCanonicalTs])
  rcases s with _ | ⟨a17, s⟩
  · exact absurd h (by simp [isCanonicalTs])
  rcases s with _ | ⟨a18, s⟩
  · exact absurd h (by simp [isCanonicalTs])
  rcases s with _ | ⟨a19, s⟩
  swap
  · exact absurd h (by simp [isCanonicalTs])
  simp only [isCanonicalTs, Bool.and_eq_true, beq_iff_eq] at h
  obtain ⟨⟨⟨⟨⟨⟨⟨⟨⟨⟨⟨⟨⟨⟨⟨⟨⟨⟨hy1, hy2⟩, hy3⟩, hy4⟩, hd1⟩, hmo1⟩, hmo2⟩,
    hd2⟩, hda1⟩, hda2⟩, hsp⟩, hh1⟩, hh2⟩, hc1⟩, hmi1⟩, hmi2⟩, hc2⟩,
    hse1⟩, hse2⟩ := h
  subst hd1 hd2 hsp hc1 hc2
  refine ⟨?_, ?_, ?_⟩
  · intro c hc
    simp only [List.mem_cons, List.not_mem_nil, or_false] at hc
    rcases hc with rfl | rfl | rfl | rfl | rfl | rfl | rfl | rfl | rfl |
      rfl | rfl | rfl | rfl | rfl | rfl | rfl | rfl | rfl | rfl
    all_goals first
      | exact Or.inl (by assumption)
      | simp
  · intro a ha
    simp only [List.head?_cons, Option.some.injEq] at ha
    subst ha
    exact hy1
  · intro a ha
    simp only [List.getLast?_cons_cons, List.getLast?_singleton,
      Option.some.injEq] at ha
    subst ha
    exact hse2

/-- C8: _normalize_timestamp is the identity on every already canonical
timestamp: the emsp removal finds no ampersand, the strip finds no outer
whitespace, and both inner patterns require a comma, which a canonical
timestamp never contains, so the input is returned unchanged. -/
theorem claim_C8 (s : List Char) (h : isCanonicalTs s = true) :
    normalizeTimestamp s = s := by
  obtain ⟨hmem, hhead, hlast⟩ := canonical_facts h
  have hAmp : '&' ∉ s := by
    intro hm
    have hx := hmem '&' hm
    revert hx
    decide
  have hComma : ',' ∉ s := by
    intro hm
    have hx := hmem ',' hm
    revert hx
    decide
  have hemsp : subAll emspRe [] s = s := by
    have hn : reSearch emspRe s = none :=
      reSearch_req_none '&' emspRe (by decide) s hAmp
    unfold subAll
    simp [subAllF, hn]
  have hstrip : pyStrip s = s :=
    pyStrip_eq_self_of_ends
      (fun a ha => digit_not_space (hhead a ha))
      (fun a ha => digit_not_space (hlast a ha))
  have hA : reSearch normARe s = none :=
    reSearch_req_none ',' normARe (by decide) s hComma
  have hB : reSearch normBRe s = none :=
    reSearch_req_none ',' normBRe (by decide) s hComma
  unfold normalizeTimestamp
  rw [hemsp, hstrip]
  simp only [hA, hB]

set_option maxRecDepth 40000 in
/-- Witness for C8: a concrete canonical timestamp is returned unchanged. -/
theorem claim_C8_witness :
    isCanonicalTs "2024-07-28 16:25:32".data = true ∧
    normalizeTimestamp "2024-07-28 16:25:32".data =
      "2024-07-28 16:25:32".data :=
  ⟨by decide, claim_C8 "2024-07-28 16:25:32".data (by decide)⟩

set_option maxRecDepth 200000 in
/-- C4: evidence that a fragment matching the first absolute timestamp
format is returned as the raw matched text, not in canonical form: the
outer pattern is day first while both inner patterns of the normalizer
expect another order, so normalization falls through; the second, day month
year GMT format is normalized, and the JSON output variant extracts no
timestamp at all from either absolute format with a GMT offset. -/
theorem claim_C4 :
    extract_timestamp "28 Jul, 2024, 4:24:58 PM GMT+05:30".data =
      some "28 Jul, 2024, 4:24:58 PM GMT+05:30".data ∧
    isCanonicalTs "28 Jul, 2024, 4:24:58 PM GMT+05:30".data = false ∧
    extract_timestamp "28 Jul 2024, 4:25:32 GMT+05:30".data =
      some "2024-07-28 04:25:32".data ∧
    json_extract_timestamp "28 Jul, 2024, 4:24:58 PM GMT+05:30".data =
      none ∧
    json_extract_timestamp "28 Jul 2024, 4:25:32 GMT+05:30".data = none := by
  refine ⟨by decide, by decide, by decide, by decide, by decide⟩

end GPay
